import Mathlib

/-!
Shallow embedding of the uniweb CLI test-harness core
(tests/setup/test-helpers.js and tests/setup/additional-helpers.js):
the sandbox subprocess wrapper, the fluent operation chain argument
builders and path computations, the batch-operation queue, the content
builder, the performance helper and the nested-property accessor.
Machine-level JavaScript behaviours that matter here (object key
insertion order, truthiness of strings and numbers, the logical-or
default idiom) are modelled explicitly.
-/

set_option autoImplicit false

namespace UniwebTests

/-! ## JavaScript value conventions -/

/-- JS `x || d` for an optional string field of an error object:
`undefined` and the empty string are falsy. -/
def jsOrStr : Option String → String → String
  | some s, d => if s = "" then d else s
  | none, d => d

/-- JS `x || d` for an optional numeric field: `undefined` and `0` are falsy. -/
def jsOrNat : Option Nat → Nat → Nat
  | some n, d => if n = 0 then d else n
  | none, d => d

/-- Truthiness test for an optional string option field, as used by the
`if (options.x)` guards in the fluent operations: a missing field and the
empty string are falsy. -/
def givenOk : Option String → Bool
  | some s => !s.isEmpty
  | none => false

/-- Assignment `obj[k] = v` on a JS object modelled as an insertion-ordered
association list: an existing key keeps its position and gets the new value,
a new key is appended at the end. -/
def jsObjectSet {α : Type} (m : List (String × α)) (k : String) (v : α) :
    List (String × α) :=
  if m.any (fun p => p.1 = k) then
    m.map (fun p => if p.1 = k then (k, v) else p)
  else
    m ++ [(k, v)]

/-- Property read `obj[k]` on a JS object modelled as an association list. -/
def jsObjectGet {α : Type} (m : List (String × α)) (k : String) : Option α :=
  (m.find? (fun p => p.1 = k)).map (fun p => p.2)

/-- What the external `uniweb` subprocess does on one invocation: either it
launches and exits with some code after writing its streams, or it fails
to launch at all. -/
inductive SubprocessBehavior : Type
  | exits (stdout stderr : String) (exitCode : Nat)
  | launchFail (message : String)

/-- The error object execa rejects with: stream captures and the exit code
when it got that far, and always a message. -/
structure ExecaError : Type where
  stdout : Option String
  stderr : Option String
  exitCode : Option Nat
  message : String

/-- Outcome of `await execa(...)`: the promise either resolves with a result
record or rejects with an `ExecaError`. -/
inductive ExecaOutcome : Type
  | resolved (stdout stderr : String) (exitCode : Nat)
  | rejected (e : ExecaError)

/-- The message execa puts on a non-zero-exit error. -/
def execaFailMsg (code : Nat) : String :=
  "Command failed with exit code " ++ toString code

/-- Modelled from the execa contract under the default options used by
`runUniweb`: the promise resolves only for exit code 0; a non-zero exit
rejects with an error carrying the captured streams, the exit code and a
message; a launch failure rejects with a message only. -/
def execaRun : SubprocessBehavior → ExecaOutcome
  | .exits out err 0 => .resolved out err 0
  | .exits out err (c + 1) =>
      .rejected ⟨some out, some err, some (c + 1), execaFailMsg (c + 1)⟩
  | .launchFail msg => .rejected ⟨none, none, none, msg⟩

/-- The uniform result record `runUniweb` returns. -/
structure RunResult : Type where
  success : Bool
  stdout : String
  stderr : String
  exitCode : Nat
  error : Option String := none

/-- `TestEnvironment.runUniweb`: wraps the awaited execa call in try/catch
and converts both branches to a `RunResult`, so it never raises itself. -/
def runUniweb (outcome : ExecaOutcome) : RunResult :=
  match outcome with
  | .resolved out err code =>
      { success := true, stdout := out, stderr := err, exitCode := code }
  | .rejected e =>
      { success := false
        stdout := jsOrStr e.stdout ""
        stderr := jsOrStr e.stderr ""
        exitCode := jsOrNat e.exitCode 1
        error := some e.message }

/-! ## Fluent operation argument vectors (test-helpers.js, lines 605-670) -/

/-- Options accepted by `initProject`. -/
structure InitOptions : Type where
  singleSite : Bool := false
  module : Option String := none
  site : Option String := none

/-- Options accepted by `addPage`. -/
structure AddPageOptions : Type where
  site : Option String := none

/-- Options accepted by `addSection`. -/
structure AddSectionOptions : Type where
  page : Option String := none
  site : Option String := none
  position : Option String := none

/-- Options accepted by `setSection`. -/
structure SetSectionOptions : Type where
  page : Option String := none
  site : Option String := none
  locale : Option String := none

/-- One `if (options.x) args.push(flag, options.x)` step: the flag pair is
appended only when the option is present and truthy (non-empty). -/
def optFlag (flag : String) (v : Option String) : List String :=
  match v with
  | some s => if s.isEmpty then [] else [flag, s]
  | none => []

/-- Argument vector built by `initProject`. -/
def initProjectArgs (name : String) (o : InitOptions) : List String :=
  ["init", name]
    ++ (if o.singleSite then ["--single-site"] else [])
    ++ optFlag "--module" o.module
    ++ optFlag "--site" o.site

/-- Argument vector built by `addSection`. -/
def addSectionArgs (name : String) (o : AddSectionOptions) : List String :=
  ["add", "section", name]
    ++ optFlag "--page" o.page
    ++ optFlag "--site" o.site
    ++ optFlag "--position" o.position

/-- Argument vector built by `setSection`: the optional flags, then always
the `--body` pair. -/
def setSectionArgs (name content : String) (o : SetSectionOptions) :
    List String :=
  ["set", "section", name]
    ++ optFlag "--page" o.page
    ++ optFlag "--site" o.site
    ++ optFlag "--locale" o.locale
    ++ ["--body", content]

/-! ## `setSection` post-verification (test-helpers.js, lines 651-670) -/

/-- JS `s.split(sep)` for a one-character separator, on the character
list: split at every occurrence, keeping empty segments, never returning
an empty list. -/
def splitChar (sep : Char) : List Char → List (List Char)
  | [] => [[]]
  | c :: rest =>
    if c = sep then [] :: splitChar sep rest
    else
      match splitChar sep rest with
      | h :: t => (c :: h) :: t
      | [] => [[c]]

/-- `content.split("\n")[0]`: the text before the first newline. -/
def firstLine (content : String) : String :=
  String.mk ((splitChar '\n' content.data).headD [])

/-- `options.site ? \`sites/.../pages\` : "pages"`. -/
def setSectionBasePath (o : SetSectionOptions) : String :=
  match o.site with
  | some s => if s.isEmpty then "pages" else "sites/" ++ s ++ "/pages"
  | none => "pages"

/-- `options.page ? \`basePath/page\` : basePath`. -/
def setSectionPagePath (o : SetSectionOptions) : String :=
  let basePath := setSectionBasePath o
  match o.page with
  | some p => if p.isEmpty then basePath else basePath ++ "/" ++ p
  | none => basePath

/-- The file path `setSection` verifies, with the whole page path prefixed
by `locales/<locale>/` when a truthy locale option is present. -/
def setSectionFilePath (name : String) (o : SetSectionOptions) : String :=
  let pagePath := setSectionPagePath o
  match o.locale with
  | some l =>
      if l.isEmpty then pagePath ++ "/" ++ name ++ ".md"
      else "locales/" ++ l ++ "/" ++ pagePath ++ "/" ++ name ++ ".md"
  | none => pagePath ++ "/" ++ name ++ ".md"

/-- A queued `expectFileContains` check: which file, and which substring
it must contain. -/
structure ContainsCheck : Type where
  path : String
  needle : String

/-- The independent post-verification performed by `setSection`: the
computed file must contain the first line of the supplied content. -/
def setSectionVerification (name content : String) (o : SetSectionOptions) :
    ContainsCheck :=
  { path := setSectionFilePath name o, needle := firstLine content }

/-- Is `needle` an initial segment of `hay`? -/
def prefixOfChars : List Char → List Char → Bool
  | [], _ => true
  | _ :: _, [] => false
  | a :: as, b :: bs => a = b && prefixOfChars as bs

/-- Does `hay` contain `needle` as a contiguous substring?  Models the
vitest `toContain` matcher on strings. -/
def substrOfChars (needle : List Char) : List Char → Bool
  | [] => prefixOfChars needle []
  | c :: hs => prefixOfChars needle (c :: hs) || substrOfChars needle hs

/-- Whether a `ContainsCheck` passes against the actual file content. -/
def containsCheckPasses (c : ContainsCheck) (fileContent : String) : Bool :=
  substrOfChars c.needle.data fileContent.data

/-! ## BatchOperations (additional-helpers.js, lines 7-44) -/

/-- A typed record on the batch queue. -/
inductive BatchOp : Type
  | addPage (name : String) (options : AddPageOptions)
  | addSection (name : String) (options : AddSectionOptions)
  | setSection (name : String) (content : String) (options : SetSectionOptions)

/-- The object state of a `BatchOperations` instance: the sandbox it wraps
and the ordered queue of declared operations. -/
structure BatchOperations (Env : Type) : Type where
  env : Env
  operations : List BatchOp

/-- The sandbox side of batch execution: each fluent method mutates the
sandbox state or throws a test failure. -/
structure SandboxSem (Env Err : Type) : Type where
  addPage : Env → String → AddPageOptions → Except Err Env
  addSection : Env → String → AddSectionOptions → Except Err Env
  setSection : Env → String → String → SetSectionOptions → Except Err Env

/-- `BatchOperations.addPage`: push one record, return the batch object. -/
def BatchOperations.addPage {Env : Type} (b : BatchOperations Env)
    (name : String) (options : AddPageOptions) : BatchOperations Env :=
  { b with operations := b.operations ++ [BatchOp.addPage name options] }

/-- `BatchOperations.addSection`: push one record, return the batch object. -/
def BatchOperations.addSection {Env : Type} (b : BatchOperations Env)
    (name : String) (options : AddSectionOptions) : BatchOperations Env :=
  { b with operations := b.operations ++ [BatchOp.addSection name options] }

/-- `BatchOperations.setSection`: push one record, return the batch object. -/
def BatchOperations.setSection {Env : Type} (b : BatchOperations Env)
    (name content : String) (options : SetSectionOptions) :
    BatchOperations Env :=
  { b with operations :=
      b.operations ++ [BatchOp.setSection name content options] }

/-- The switch statement inside `execute`: dispatch one record to the
corresponding sandbox method. -/
def dispatchOp {Env Err : Type} (sem : SandboxSem Env Err) (env : Env) :
    BatchOp → Except Err Env
  | .addPage n o => sem.addPage env n o
  | .addSection n o => sem.addSection env n o
  | .setSection n c o => sem.setSection env n c o

/-- The `for (const op of this.operations)` loop of `execute`: run each
record in order, stopping at the first thrown failure. -/
def execOps {Env Err : Type} (sem : SandboxSem Env Err) :
    List BatchOp → Env → Except Err Env
  | [], env => .ok env
  | op :: rest, env =>
    match dispatchOp sem env op with
    | .ok env2 => execOps sem rest env2
    | .error e => .error e

/-- `BatchOperations.execute`: run the queue against the sandbox and on
success return `this.env`; the first component of the pair is the returned
value, the second is the object state after the call (the queue field is
never written by `execute`). -/
def BatchOperations.execute {Env Err : Type} (sem : SandboxSem Env Err)
    (b : BatchOperations Env) :
    Except Err (Env × BatchOperations Env) :=
  (execOps sem b.operations b.env).map
    (fun env2 => (env2, { env := env2, operations := b.operations }))

/-! ## ContentBuilder (additional-helpers.js, lines 47-107) -/

/-- The fields of `TestEnvironment` that `cleanup` reads. -/
structure EnvState : Type where
  tempDir : Option String
  originalCwd : String

/-- State-preserving effect operations on a world `W`: each returns the
world after the attempt and an error message when the call threw.  A
thrown call may already have mutated the world. -/
structure FsEffects (W : Type) : Type where
  chdir : W → String → W × Option String
  remove : W → String → W × Option String

/-- The warning text printed when cleanup fails. -/
def cleanupWarning (tempDir errMsg : String) : String :=
  "Warning: Could not clean up temp directory " ++ tempDir ++ ": " ++ errMsg

/-- `TestEnvironment.cleanup`: if a temp dir was assigned, chdir back to
the original cwd then recursively remove the temp dir, converting any
thrown error into a warning.  The returned list is the console warnings;
the function is total and never propagates an error. -/
def cleanup {W : Type} (eff : FsEffects W) (st : EnvState) (w : W) :
    W × List String :=
  match st.tempDir with
  | none => (w, [])
  | some d =>
    let (w1, e1) := eff.chdir w st.originalCwd
    match e1 with
    | some e => (w1, [cleanupWarning d e])
    | none =>
      let (w2, e2) := eff.remove w1 d
      match e2 with
      | some e => (w2, [cleanupWarning d e])
      | none => (w2, [])

/-- A concrete filesystem world: the process working directory and the set
of existing directory paths. -/
structure FSWorld : Type where
  cwd : String
  dirs : List String

/-- `process.chdir`: succeeds exactly when the target directory exists. -/
def fsChdir (w : FSWorld) (p : String) : FSWorld × Option String :=
  if w.dirs.contains p then ({ w with cwd := p }, none)
  else (w, some ("ENOENT: no such directory, chdir " ++ p))

/-- `fs.remove`: recursively deletes the path and everything below it
(the path itself and every path under it); succeeds even when the path
does not exist. -/
def fsRemove (w : FSWorld) (p : String) : FSWorld × Option String :=
  let survives := fun q => !(q = p || prefixOfChars (p ++ "/").data q.data)
  ({ w with dirs := w.dirs.filter survives }, none)

/-- The concrete effect bundle for `FSWorld`. -/
def fsEffects : FsEffects FSWorld :=
  { chdir := fsChdir, remove := fsRemove }

/-! ## getNestedProperty and expectYamlProperty (test-helpers.js, 544-552, 714-716) -/

/-- JavaScript values as produced by `yaml.parse`. -/
inductive JSValue : Type
  | undefined
  | null
  | bool (b : Bool)
  | num (n : Int)
  | str (s : String)
  | arr (elems : List JSValue)
  | obj (fields : List (String × JSValue))

/-- One step `current?.[key]` of the reduce: optional chaining turns a
`null`/`undefined` receiver into `undefined`; objects look the key up,
arrays expose `length` and their indices, strings expose `length`, and
every other access yields `undefined`. -/
def getProp : JSValue → String → JSValue
  | .undefined, _ => .undefined
  | .null, _ => .undefined
  | .obj fields, k =>
      match (jsObjectGet fields k) with
      | some v => v
      | none => .undefined
  | .arr elems, k =>
      if k = "length" then .num elems.length
      else
        match k.toNat? with
        | some i => elems.getD i .undefined
        | none => .undefined
  | .str s, k => if k = "length" then .num s.length else .undefined
  | .bool _, _ => .undefined
  | .num _, _ => .undefined

/-- `TestEnvironment.getNestedProperty`:
`path.split(".").reduce((current, key) => current?.[key], obj)`. -/
def getNestedProperty (obj : JSValue) (path : String) : JSValue :=
  ((splitChar '.' path.data).map String.mk).foldl getProp obj

/-- The comparison performed by `expectYamlProperty`: the possibly
undefined resolved value is what is compared to the expectation. -/
def expectYamlPropertyCheck (doc : JSValue) (property : String)
    (expected : JSValue) : Prop :=
  getNestedProperty doc property = expected

/-! ## PerformanceHelper.timeOperation (additional-helpers.js, lines 276-283) -/

/-- The metrics object of a `PerformanceHelper`. -/
structure PerformanceHelper : Type where
  metrics : List (String × Nat) := []

/-- `timeOperation(name, operation)`: `start` is the clock when the call
begins and `elapsed` how far the clock advances while the awaited
operation runs; `outcome` is what the awaited operation does.  When the
operation resolves, the measured duration is stored under `name` and
`\x7bresult, duration\x7d` is returned; when it rejects, the await
re-throws before the duration is computed, so the metrics are untouched
and the error propagates. -/
def timeOperation {α ε : Type} (ph : PerformanceHelper) (name : String)
    (start : Nat) (outcome : Except ε α) (elapsed : Nat) :
    PerformanceHelper × Except ε (α × Nat) :=
  match outcome with
  | .error e => (ph, .error e)
  | .ok result =>
    let duration := (start + elapsed) - start
    ({ metrics := jsObjectSet ph.metrics name duration },
     .ok (result, duration))

/-! ## Helper lemmas and predicates -/

/-- A string option field is well formed when it is absent or non-empty,
so that JS truthiness agrees with presence. -/
def wellFormedOpt : Option String → Bool
  | some s => !s.isEmpty
  | none => true

/-- A concrete sandbox semantics for exercising batch execution: every
operation succeeds and bumps a counter. -/
def countSem : SandboxSem Nat Unit :=
  { addPage := fun env _ _ => .ok (env + 1)
    addSection := fun env _ _ => .ok (env + 1)
    setSection := fun env _ _ _ => .ok (env + 1) }

/-- C1: for every subprocess behaviour, `runUniweb` returns a uniform
result record without raising: `success` is true exactly when the exit
code is 0; the captured streams are passed through (empty on a launch
failure); the exit code is passed through (1 on a launch failure, where
none is available); `error` carries the error message exactly in the
failure cases. -/
theorem runUniweb_uniform_result (out err msg : String) (code : Nat) :
    (runUniweb (execaRun (SubprocessBehavior.exits out err code))).success
        = decide (code = 0)
  ∧ (runUniweb (execaRun (SubprocessBehavior.exits out err code))).stdout = out
  ∧ (runUniweb (execaRun (SubprocessBehavior.exits out err code))).stderr = err
  ∧ (runUniweb (execaRun (SubprocessBehavior.exits out err code))).exitCode
        = code
  ∧ (runUniweb (execaRun (SubprocessBehavior.exits out err code))).error
        = (if code = 0 then none else some (execaFailMsg code))
  ∧ (runUniweb (execaRun (SubprocessBehavior.launchFail msg))).success = false
  ∧ (runUniweb (execaRun (SubprocessBehavior.launchFail msg))).stdout = ""
  ∧ (runUniweb (execaRun (SubprocessBehavior.launchFail msg))).stderr = ""
  ∧ (runUniweb (execaRun (SubprocessBehavior.launchFail msg))).exitCode = 1
  ∧ (runUniweb (execaRun (SubprocessBehavior.launchFail msg))).error = some msg
    := by
  rcases code with _ | c
  · simp [runUniweb, execaRun, jsOrStr, jsOrNat]
  · simp [runUniweb, execaRun, jsOrStr, jsOrNat]
    exact ⟨fun h => h.symm, fun h => h.symm⟩

/-- C2: each fluent operation translates its options into the argument
vector as a pure function with a fixed order: `initProject` emits
`init name` then the single-site flag then module then site;
`addSection` emits `add section name` then page, site, position;
`setSection` emits `set section name` then page, site, locale and always
ends with `--body content`.  Stated for well-formed options, where a
provided option string is non-empty, so that JS truthiness coincides with
presence. -/
theorem argv_fixed_order (name content : String) (io : InitOptions)
    (ao : AddSectionOptions) (so : SetSectionOptions)
    (h1 : wellFormedOpt io.module = true) (h2 : wellFormedOpt io.site = true)
    (h3 : wellFormedOpt ao.page = true) (h4 : wellFormedOpt ao.site = true)
    (h5 : wellFormedOpt ao.position = true)
    (h6 : wellFormedOpt so.page = true) (h7 : wellFormedOpt so.site = true)
    (h8 : wellFormedOpt so.locale = true) :
    initProjectArgs name io
      = ["init", name]
        ++ (if io.singleSite then ["--single-site"] else [])
        ++ io.module.elim [] (fun m => ["--module", m])
        ++ io.site.elim [] (fun s => ["--site", s])
  ∧ addSectionArgs name ao
      = ["add", "section", name]
        ++ ao.page.elim [] (fun p => ["--page", p])
        ++ ao.site.elim [] (fun s => ["--site", s])
        ++ ao.position.elim [] (fun p => ["--position", p])
  ∧ setSectionArgs name content so
      = ["set", "section", name]
        ++ so.page.elim [] (fun p => ["--page", p])
        ++ so.site.elim [] (fun s => ["--site", s])
        ++ so.locale.elim [] (fun l => ["--locale", l])
        ++ ["--body", content] := by
  obtain ⟨ss, im, isite⟩ := io
  obtain ⟨ap, asite, apos⟩ := ao
  obtain ⟨sp, ssite, sloc⟩ := so
  refine ⟨?_, ?_, ?_⟩
  · rcases im with _ | m <;> rcases isite with _ | s <;>
      simp_all [initProjectArgs, optFlag, wellFormedOpt, Option.elim]
  · rcases ap with _ | p <;> rcases asite with _ | s <;>
      rcases apos with _ | q <;>
      simp_all [addSectionArgs, optFlag, wellFormedOpt, Option.elim]
  · rcases sp with _ | p <;> rcases ssite with _ | s <;>
      rcases sloc with _ | l <;>
      simp_all [setSectionArgs, optFlag, wellFormedOpt, Option.elim]

/-- Witness for C2 at concrete inputs. -/
theorem argv_fixed_order_witness :
    initProjectArgs "hero" ⟨true, some "mod", some "demo"⟩
      = ["init", "hero", "--single-site", "--module", "mod", "--site", "demo"]
  ∧ addSectionArgs "hero" ⟨some "index", none, some "under:tabs"⟩
      = ["add", "section", "hero", "--page", "index",
         "--position", "under:tabs"]
  ∧ setSectionArgs "hero" "# Hi" ⟨some "index", none, some "fr"⟩
      = ["set", "section", "hero", "--page", "index", "--locale", "fr",
         "--body", "# Hi"] := by
  have h := argv_fixed_order "hero" "# Hi" ⟨true, some "mod", some "demo"⟩
    ⟨some "index", none, some "under:tabs"⟩ ⟨some "index", none, some "fr"⟩
    (by decide) (by decide) (by decide) (by decide) (by decide) (by decide)
    (by decide) (by decide)
  refine ⟨?_, ?_, ?_⟩
  · simpa using h.1
  · simpa using h.2.1
  · simpa using h.2.2

/-- C3: the file path checked by the post-verification of `setSection` is
the base path (`pages`, or `sites/<site>/pages` when a site is given),
extended with `/<page>` when a page is given and with `/<name>.md`, the
whole page path prefixed with `locales/<locale>/` when a locale is given;
and the verification requires that file to contain the first line of the
supplied content.  Stated for well-formed options, where a provided option
string is non-empty. -/
theorem setSection_verification_path (name content fc : String)
    (o : SetSectionOptions)
    (hp : wellFormedOpt o.page = true) (hs : wellFormedOpt o.site = true)
    (hl : wellFormedOpt o.locale = true) :
    (setSectionVerification name content o).path
      = (let base : String :=
           match o.site with
           | some s => "sites/" ++ s ++ "/pages"
           | none => "pages"
         let pagePath : String :=
           match o.page with
           | some p => base ++ "/" ++ p
           | none => base
         match o.locale with
         | some l => "locales/" ++ l ++ "/" ++ pagePath ++ "/" ++ name ++ ".md"
         | none => pagePath ++ "/" ++ name ++ ".md")
  ∧ (setSectionVerification name content o).needle = firstLine content
  ∧ containsCheckPasses (setSectionVerification name content o) fc
      = substrOfChars (firstLine content).data fc.data := by
  obtain ⟨sp, ssite, sloc⟩ := o
  refine ⟨?_, rfl, rfl⟩
  rcases sp with _ | p <;> rcases ssite with _ | s <;> rcases sloc with _ | l <;>
    simp_all [setSectionVerification, setSectionFilePath, setSectionPagePath,
      setSectionBasePath, wellFormedOpt]

/-- Witness for C3 at concrete inputs. -/
theorem setSection_verification_path_witness :
    (setSectionVerification "product-list" "---\ncomponent: X"
        ⟨some "products", none, some "fr"⟩).path
      = "locales/fr/pages/products/product-list.md"
  ∧ (setSectionVerification "product-list" "---\ncomponent: X"
        ⟨some "products", none, some "fr"⟩).needle = "---" := by
  have h := setSection_verification_path "product-list" "---\ncomponent: X"
    "f" ⟨some "products", none, some "fr"⟩ (by decide) (by decide) (by decide)
  exact ⟨h.1.trans (by decide), h.2.1.trans (by decide)⟩

/-- C10: whenever the first line of the supplied content is empty (the
content is empty or begins with a newline), the post-verification of
`setSection` checks containment of the empty string, which every file
content satisfies, so the content check cannot fail. -/
theorem setSection_check_vacuous_on_empty_first_line
    (name content fileContent : String) (o : SetSectionOptions)
    (h : content.data = [] ∨ ∃ rest, content.data = '\n' :: rest) :
    (setSectionVerification name content o).needle = ""
  ∧ containsCheckPasses (setSectionVerification name content o) fileContent
      = true := by
  have hfl : firstLine content = "" := by
    rcases h with h | ⟨rest, h⟩ <;> simp [firstLine, h, splitChar]
  have hall : ∀ hay : List Char, substrOfChars [] hay = true := by
    intro hay
    cases hay <;> simp [substrOfChars, prefixOfChars]
  constructor
  · exact hfl
  · show substrOfChars (firstLine content).data fileContent.data = true
    rw [hfl]
    exact hall fileContent.data

/-- Witness for C10 at concrete inputs. -/
theorem setSection_check_vacuous_witness :
    (setSectionVerification "hero" "\nHello" ⟨none, none, none⟩).needle = ""
  ∧ containsCheckPasses
      (setSectionVerification "hero" "\nHello" ⟨none, none, none⟩)
      "totally unrelated file body" = true :=
  setSection_check_vacuous_on_empty_first_line "hero" "\nHello"
    "totally unrelated file body" ⟨none, none, none⟩
    (Or.inr ⟨"Hello".data, rfl⟩)

/-- Sequencing lemma for the execute loop: running a concatenated queue is
running the first part and, only when every operation of it succeeded,
continuing with the second from the reached sandbox state. -/
theorem execOps_append (Env Err : Type) (sem : SandboxSem Env Err)
    (xs ys : List BatchOp) (env : Env) :
    execOps sem (xs ++ ys) env
      = (execOps sem xs env).bind (fun env2 => execOps sem ys env2) := by
  induction xs generalizing env with
  | nil => simp [execOps, Except.bind]
  | cons op rest ih =>
    cases h : dispatchOp sem env op with
    | ok env2 => simp [execOps, h, ih env2, Except.bind]
    | error e => simp [execOps, h, Except.bind]

/-- C4: the batch declaration methods each append exactly one typed record
to the queue and return the batch object (same sandbox, extended queue);
`execute` dispatches the queued records in insertion order to the
corresponding sandbox methods — running a queue is the monadic sequencing
of its parts, so the first failure short-circuits and later records are
never dispatched — and on full success resolves to the underlying
sandbox. -/
theorem batch_queue_and_execute (Env Err : Type) (sem : SandboxSem Env Err)
    (b : BatchOperations Env) (n c : String) (po : AddPageOptions)
    (so : AddSectionOptions) (sso : SetSectionOptions) (env : Env)
    (xs ys : List BatchOp) :
    (b.addPage n po).operations = b.operations ++ [BatchOp.addPage n po]
  ∧ (b.addSection n so).operations
      = b.operations ++ [BatchOp.addSection n so]
  ∧ (b.setSection n c sso).operations
      = b.operations ++ [BatchOp.setSection n c sso]
  ∧ (b.addPage n po).env = b.env
  ∧ (b.addSection n so).env = b.env
  ∧ (b.setSection n c sso).env = b.env
  ∧ dispatchOp sem env (BatchOp.addPage n po) = sem.addPage env n po
  ∧ dispatchOp sem env (BatchOp.addSection n so) = sem.addSection env n so
  ∧ dispatchOp sem env (BatchOp.setSection n c sso)
      = sem.setSection env n c sso
  ∧ execOps sem [] env = Except.ok env
  ∧ execOps sem (xs ++ ys) env
      = (execOps sem xs env).bind (fun env2 => execOps sem ys env2)
  ∧ BatchOperations.execute sem b
      = (execOps sem b.operations b.env).map
          (fun env2 => (env2, { env := env2, operations := b.operations })) :=
  ⟨rfl, rfl, rfl, rfl, rfl, rfl, rfl, rfl, rfl, rfl,
   execOps_append Env Err sem xs ys env, rfl⟩

/-- C9: a successful `execute` leaves the queue untouched, so a second
call dispatches the very same records in the same order, starting from
the sandbox state the first call produced. -/
theorem execute_queue_preserved (Env Err : Type) (sem : SandboxSem Env Err)
    (b : BatchOperations Env) (env2 : Env) (b2 : BatchOperations Env)
    (h : BatchOperations.execute sem b = Except.ok (env2, b2)) :
    b2.operations = b.operations
  ∧ BatchOperations.execute sem b2
      = (execOps sem b.operations env2).map
          (fun env3 => (env3, { env := env3, operations := b.operations })) := by
  unfold BatchOperations.execute at h
  cases hE : execOps sem b.operations b.env with
  | error e =>
    rw [hE] at h
    exact absurd h (by simp [Except.map])
  | ok envf =>
    rw [hE] at h
    have h2 : (envf,
        ({ env := envf, operations := b.operations } : BatchOperations Env))
        = (env2, b2) := by
      simpa [Except.map] using h
    injection h2 with h3 h4
    subst h3
    subst h4
    exact ⟨rfl, rfl⟩

/-- Witness for C9 at concrete inputs. -/
theorem execute_queue_preserved_witness :
    ({ env := 1, operations := [BatchOp.addPage "p" ⟨none⟩] } :
        BatchOperations Nat).operations
      = ({ env := 0, operations := [BatchOp.addPage "p" ⟨none⟩] } :
        BatchOperations Nat).operations
  ∧ BatchOperations.execute countSem
      ({ env := 1, operations := [BatchOp.addPage "p" ⟨none⟩] } :
        BatchOperations Nat)
      = (execOps countSem [BatchOp.addPage "p" ⟨none⟩] 1).map
          (fun env3 => (env3, ⟨env3, [BatchOp.addPage "p" ⟨none⟩]⟩)) :=
  execute_queue_preserved Nat Unit countSem
    ⟨0, [BatchOp.addPage "p" ⟨none⟩]⟩ 1 ⟨1, [BatchOp.addPage "p" ⟨none⟩]⟩ rfl

/-- C6: with a sandbox directory assigned, `cleanup` restores the working
directory saved at construction and recursively deletes the sandbox
directory; a failure of either step is converted into a single console
warning and the call always returns normally (its type carries warnings,
never an exception).  The last three conjuncts run the concrete
filesystem model: the working directory afterwards is the original one,
no warning is emitted, and no surviving directory is the sandbox
directory or below it. -/
theorem cleanup_restores_and_never_throws (W : Type) (eff : FsEffects W)
    (st : EnvState) (w w1 w2 : W) (d e q : String) (fw : FSWorld)
    (htd : st.tempDir = some d)
    (hmem : st.originalCwd ∈ fw.dirs) :
    (eff.chdir w st.originalCwd = (w1, none) →
      eff.remove w1 d = (w2, none) →
      cleanup eff st w = (w2, []))
  ∧ (eff.chdir w st.originalCwd = (w1, some e) →
      cleanup eff st w = (w1, [cleanupWarning d e]))
  ∧ (eff.chdir w st.originalCwd = (w1, none) →
      eff.remove w1 d = (w2, some e) →
      cleanup eff st w = (w2, [cleanupWarning d e]))
  ∧ (cleanup fsEffects st fw).1.cwd = st.originalCwd
  ∧ (cleanup fsEffects st fw).2 = []
  ∧ (q ∈ (cleanup fsEffects st fw).1.dirs →
      ¬(q = d ∨ prefixOfChars (d ++ "/").data q.data = true)) := by
  have hchd : fsChdir fw st.originalCwd
      = ({ fw with cwd := st.originalCwd }, none) := by
    simp [fsChdir, hmem]
  refine ⟨?_, ?_, ?_, ?_, ?_, ?_⟩
  · intro hc hr
    simp [cleanup, htd, hc, hr]
  · intro hc
    simp [cleanup, htd, hc]
  · intro hc hr
    simp [cleanup, htd, hc, hr]
  · simp [cleanup, htd, fsEffects, hchd, fsRemove]
  · simp [cleanup, htd, fsEffects, hchd, fsRemove]
  · intro hq hor
    simp [cleanup, htd, fsEffects, hchd, fsRemove, List.mem_filter] at hq
    rcases hor with h | h <;> simp_all

/-- Witness for C6 at concrete inputs. -/
theorem cleanup_restores_witness :
    cleanup fsEffects
        ⟨some "/tmp/uniweb-test-x", "/root/proj"⟩
        ⟨"/tmp/uniweb-test-x",
          ["/root/proj", "/tmp/uniweb-test-x", "/tmp/uniweb-test-x/pages"]⟩
      = (⟨"/root/proj", ["/root/proj"]⟩, []) := by
  have h := cleanup_restores_and_never_throws FSWorld fsEffects
    ⟨some "/tmp/uniweb-test-x", "/root/proj"⟩
    ⟨"/tmp/uniweb-test-x",
      ["/root/proj", "/tmp/uniweb-test-x", "/tmp/uniweb-test-x/pages"]⟩
    ⟨"/root/proj",
      ["/root/proj", "/tmp/uniweb-test-x", "/tmp/uniweb-test-x/pages"]⟩
    ⟨"/root/proj", ["/root/proj"]⟩
    "/tmp/uniweb-test-x" "e" "/root/proj"
    ⟨"/tmp/uniweb-test-x",
      ["/root/proj", "/tmp/uniweb-test-x", "/tmp/uniweb-test-x/pages"]⟩
    rfl (by decide)
  exact h.1 rfl rfl

/-- Descending from `undefined` stays `undefined` for every remaining
key, because each step of the reduce applies optional chaining. -/
theorem foldl_getProp_undefined (ks : List String) :
    List.foldl getProp JSValue.undefined ks = JSValue.undefined := by
  induction ks with
  | nil => rfl
  | cons k ks ih => simpa using ih

/-- C7: `getNestedProperty` descends through the dot-separated keys and
is a total function; as soon as an intermediate key is missing (its
lookup yields `undefined`), the final result is `undefined`, and a
`null`/`undefined` intermediate value turns any further access into
`undefined`; `expectYamlProperty` compares exactly this possibly
undefined resolved value with the expectation. -/
theorem getNestedProperty_missing_key_undefined (obj : JSValue)
    (path : String) (ks1 : List String) (k : String) (ks2 : List String)
    (expected : JSValue) (k2 : String) (o2 : JSValue) (p2 : String)
    (hsplit : (splitChar '.' path.data).map String.mk = ks1 ++ k :: ks2)
    (hmiss : getProp (List.foldl getProp obj ks1) k = JSValue.undefined) :
    getNestedProperty obj path = JSValue.undefined
  ∧ (expectYamlPropertyCheck obj path expected
      ↔ JSValue.undefined = expected)
  ∧ getProp JSValue.null k2 = JSValue.undefined
  ∧ getProp JSValue.undefined k2 = JSValue.undefined
  ∧ getNestedProperty o2 p2
      = List.foldl getProp o2 ((splitChar '.' p2.data).map String.mk) := by
  have h1 : getNestedProperty obj path = JSValue.undefined := by
    unfold getNestedProperty
    rw [hsplit, List.foldl_append, List.foldl_cons, hmiss,
      foldl_getProp_undefined]
  refine ⟨h1, ?_, rfl, rfl, rfl⟩
  unfold expectYamlPropertyCheck
  rw [h1]

/-- Witness for C7 at concrete inputs. -/
theorem getNestedProperty_missing_key_witness :
    getNestedProperty
        (JSValue.obj [("a", JSValue.obj [("b", JSValue.num 1)])]) "a.x.c"
      = JSValue.undefined
  ∧ (expectYamlPropertyCheck
        (JSValue.obj [("a", JSValue.obj [("b", JSValue.num 1)])]) "a.x.c"
        JSValue.undefined
      ↔ JSValue.undefined = JSValue.undefined)
  ∧ getProp JSValue.null "sections" = JSValue.undefined
  ∧ getProp JSValue.undefined "sections" = JSValue.undefined
  ∧ getNestedProperty JSValue.null "sections.length"
      = List.foldl getProp JSValue.null
          ((splitChar '.' ("sections.length").data).map String.mk) :=
  getNestedProperty_missing_key_undefined
    (JSValue.obj [("a", JSValue.obj [("b", JSValue.num 1)])]) "a.x.c"
    ["a"] "x" ["c"] JSValue.undefined "sections" JSValue.null
    "sections.length" rfl rfl

/-- Reading a key right after writing it yields the written value,
whether the key existed before or not. -/
theorem jsObjectGet_set {α : Type} (m : List (String × α)) (k : String)
    (v : α) : jsObjectGet (jsObjectSet m k v) k = some v := by
  induction m with
  | nil => simp [jsObjectSet, jsObjectGet]
  | cons p rest ih =>
    by_cases hp : p.1 = k
    · simp [jsObjectSet, jsObjectGet, hp]
    · by_cases hr : rest.any (fun q => q.1 = k)
      · simp only [jsObjectSet, List.any_cons, hp, hr] at ih ⊢
        simp only [decide_eq_true_eq] at *
        simp [jsObjectGet, hp] at ih ⊢
        simpa [hp] using ih
      · simp only [jsObjectSet, List.any_cons, hp, hr] at ih ⊢
        simp [jsObjectGet, hp] at ih ⊢
        simpa [hp] using ih

/-- C8 counterexample: at a concrete failing operation, `timeOperation`
stores nothing in the metrics map (no entry for the name exists
afterwards) and propagates the error, refuting the claim that the
duration is recorded in the failure case as well. -/
theorem timeOperation_failure_counterexample :
    (timeOperation ({ metrics := [] } : PerformanceHelper) "op" 0
        (Except.error "boom" : Except String Nat) 5).1.metrics = []
  ∧ jsObjectGet
      (timeOperation ({ metrics := [] } : PerformanceHelper) "op" 0
        (Except.error "boom" : Except String Nat) 5).1.metrics "op" = none
  ∧ (timeOperation ({ metrics := [] } : PerformanceHelper) "op" 0
        (Except.error "boom" : Except String Nat) 5).2
      = Except.error "boom" :=
  ⟨rfl, rfl, rfl⟩

/-- C8 amended: when the operation succeeds, `timeOperation` measures the
wall-clock duration around its completion, stores it in the metrics map
keyed by the name — overwriting any prior measurement with the same
name — and resolves to the result paired with that stored duration; when
the operation fails, the rejection propagates before any measurement is
taken, leaving the metrics untouched. -/
theorem timeOperation_success_records (α ε : Type) (ph : PerformanceHelper)
    (name : String) (start elapsed : Nat) (a : α) (e : ε) :
    timeOperation ph name start (Except.ok a : Except ε α) elapsed
      = ({ metrics := jsObjectSet ph.metrics name elapsed },
         Except.ok (a, elapsed))
  ∧ jsObjectGet (jsObjectSet ph.metrics name elapsed) name = some elapsed
  ∧ timeOperation ph name start (Except.error e : Except ε α) elapsed
      = (ph, Except.error e) := by
  refine ⟨?_, jsObjectGet_set ph.metrics name elapsed, rfl⟩
  simp [timeOperation, Nat.add_sub_cancel_left]

end UniwebTests
